import Mathlib

/-!
Verification of the double-click-image-opener core: a shallow embedding of
the Path Resolver (`src/lib/path-resolver.ts`), the System Launcher
(`src/lib/system-launcher.ts`) and the Image Event Handler
(`src/image-event-handler.ts`), together with proofs about their
validation, resolution and dispatch logic.

Strings are modelled as `List Char` (one entry per UTF-16 unit of the
JavaScript string; all inputs considered here are BMP text, where code
points and UTF-16 units coincide).  External collaborators - the `node:path`
library, `fs.existsSync`, `decodeURIComponent`, `String.prototype.normalize`
and `process.platform` - enter through an explicit environment record; the
POSIX instantiations of the path functions are implemented concretely after
node's `path.posix` algorithms so that every theorem can be evaluated on
concrete inputs.
-/

/-- JavaScript strings, one `Char` per UTF-16 unit. -/
abbrev Str := List Char

/-- The backtick character (code 96). -/
def btChar : Char := Char.ofNat 96

/-- The opening-brace character (code 123). -/
def obChar : Char := Char.ofNat 123

/-- The closing-brace character (code 125). -/
def cbChar : Char := Char.ofNat 125

/-- Membership of the JavaScript `\s` class (also the set removed by
`String.prototype.trim`): whitespace and line terminators. -/
def jsWS (c : Char) : Bool :=
  let n := c.toNat
  n = 9 || n = 10 || n = 11 || n = 12 || n = 13 || n = 32 ||
  n = 160 || n = 0x1680 || (0x2000 ≤ n && n ≤ 0x200a) ||
  n = 0x2028 || n = 0x2029 || n = 0x202f || n = 0x205f ||
  n = 0x3000 || n = 0xfeff

/-- Control characters rejected by the Resolver's `isValidResolvedPath`:
codes 0-8, 11, 12, 14-31 and 127. -/
def controlJS (c : Char) : Bool :=
  let n := c.toNat
  n ≤ 8 || n = 11 || n = 12 || (14 ≤ n && n ≤ 31) || n = 127

/-- Characters matched by `.` in a JavaScript regular expression without the
`s` flag: everything except the four line terminators. -/
def dotChar (c : Char) : Bool :=
  !(c.toNat = 10 || c.toNat = 13 || c.toNat = 0x2028 || c.toNat = 0x2029)

/-- Boolean string-prefix test (JavaScript `String.prototype.startsWith`). -/
def isPref : Str → Str → Bool
  | [], _ => true
  | _ :: _, [] => false
  | a :: as2, b :: bs => a = b && isPref as2 bs

/-- Drop the longest run of `\s` characters at the end of a string. -/
def dropTrailWS (l : Str) : Str :=
  (l.reverse.dropWhile jsWS).reverse

/-- JavaScript `String.prototype.trim`: remove `\s` characters from both
ends. -/
def jsTrimL (l : Str) : Str :=
  dropTrailWS (l.dropWhile jsWS)

/-- Occurrence count of the JavaScript global regex `/\.\./g`:
non-overlapping left-to-right matches of two consecutive dots. -/
def countDotDot : Str → Nat
  | '.' :: '.' :: rest => countDotDot rest + 1
  | _ :: rest => countDotDot rest
  | [] => 0

/-- Test for a null byte (`String.prototype.includes('\0')`). -/
def containsNull (l : Str) : Bool :=
  l.any (fun c => c = '\x00')

/-- Match of the regex `/^\s*[<>]/`: an optional run of whitespace followed
by a redirection operator. -/
def leadingRedirect (l : Str) : Bool :=
  match l.dropWhile jsWS with
  | c :: _ => c = '<' || c = '>'
  | [] => false

/-- Helper for `/\$\{.*\}/`: a closing brace reachable through `.`
characters. -/
def closeBraceRun : Str → Bool
  | [] => false
  | c :: rest => c = cbChar || (dotChar c && closeBraceRun rest)

/-- Match of the regex `/\$\{.*\}/` anywhere in the string. -/
def varExpansion : Str → Bool
  | [] => false
  | '$' :: rest =>
    (match rest with
     | c :: rest2 => c = obChar && closeBraceRun rest2
     | [] => false) || varExpansion rest
  | _ :: rest => varExpansion rest

/-- Helper for the command-substitution regex: a closing backtick reachable
through `.` characters. -/
def closeBacktickRun : Str → Bool
  | [] => false
  | c :: rest => c = btChar || (dotChar c && closeBacktickRun rest)

/-- Match of the backtick command-substitution regex anywhere in the
string. -/
def backtickPair : Str → Bool
  | [] => false
  | c :: rest =>
    (c = btChar && closeBacktickRun rest) || backtickPair rest

/-- The Resolver's command-injection character class (its regex excludes
parentheses and brackets): semicolon, ampersand, pipe, backtick, dollar. -/
def resolverInjChars : Str := [';', '&', '|', btChar, '$']

/-- The Launcher's command-injection character class: the Resolver's five
characters plus parentheses, braces and square brackets. -/
def launcherInjChars : Str :=
  [';', '&', '|', btChar, '$', '(', ')', obChar, cbChar, '[', ']']

/-- Does the string contain any character of the class `cs`? -/
def anyCharIn (cs : Str) (l : Str) : Bool :=
  l.any (fun c => cs.contains c)

/-- Disjunction of the Resolver's four suspicious-pattern regexes
(`isValidResolvedPath`, also reused verbatim by the handler's
`isDangerousPath`). -/
def suspiciousResolver (l : Str) : Bool :=
  anyCharIn resolverInjChars l || leadingRedirect l ||
  varExpansion l || backtickPair l

/-- Disjunction of the Launcher's four dangerous-pattern regexes
(`isValidFilePath`). -/
def dangerousLauncher (l : Str) : Bool :=
  anyCharIn launcherInjChars l || leadingRedirect l ||
  varExpansion l || backtickPair l

/-! ## node `path.posix` algorithms -/

/-- Split a string at every `/` (the segments seen by node's
`normalizeString`). -/
def splitSlash : Str → List Str
  | [] => [[]]
  | c :: rest =>
    if c = '/' then [] :: splitSlash rest
    else
      match splitSlash rest with
      | s :: ss => (c :: s) :: ss
      | [] => [[c]]

/-- Join segments with `/` separators. -/
def joinSlash : List Str → Str
  | [] => []
  | [s] => s
  | s :: rest => s ++ '/' :: joinSlash rest

/-- node's `normalizeString`: drop empty and `.` segments and resolve `..`
segments against the accumulated prefix, keeping `..` only when
`allowAboveRoot` is set.  The accumulator holds the output segments in
reverse order. -/
def normSegs (above : Bool) : List Str → List Str → List Str
  | acc, [] => acc.reverse
  | acc, seg :: rest =>
    if seg = [] ∨ seg = ['.'] then normSegs above acc rest
    else if seg = ['.', '.'] then
      match acc with
      | [] => normSegs above (if above then [seg] else []) rest
      | last :: acc2 =>
        if last = ['.', '.'] then normSegs above (seg :: acc) rest
        else normSegs above acc2 rest
    else normSegs above (seg :: acc) rest

/-- node `path.posix.normalize`. -/
def posixNormalize (p : Str) : Str :=
  if p = [] then ['.']
  else
    let isAbs := p.head? = some '/'
    let trailing := p.getLast? = some '/'
    let body := joinSlash (normSegs (!isAbs) [] (splitSlash p))
    if body = [] then
      if isAbs then ['/'] else if trailing then ['.', '/'] else ['.']
    else
      let body2 := if trailing then body ++ ['/'] else body
      if isAbs then '/' :: body2 else body2

/-- node `path.posix.join` restricted to two arguments. -/
def posixJoin (a b : Str) : Str :=
  let joined := if a = [] then b else if b = [] then a else a ++ '/' :: b
  if joined = [] then ['.'] else posixNormalize joined

/-- node `path.posix.resolve` restricted to one argument, with the process
working directory supplied explicitly. -/
def posixResolve (cwd : Str) (x : Str) : Str :=
  let combined := if x.head? = some '/' then x else cwd ++ '/' :: x
  let isAbs := combined.head? = some '/'
  let body := joinSlash (normSegs (!isAbs) [] (splitSlash combined))
  if isAbs then '/' :: body
  else if body = [] then ['.'] else body

/-! ## The environment seen by the core -/

/-- External collaborators used by the core: the platform identifier
(`process.platform` / `os.platform()`), the host configuration directory
(`app.vault.configDir`), Unicode NFC normalization
(`String.prototype.normalize('NFC')`), the three `node:path` functions, the
`decodeURIComponent` builtin (`none` models a thrown `URIError`) and the
`fs.existsSync` oracle. -/
structure Env where
  platform : Str
  configDir : Str
  nfc : Str → Str
  normalize : Str → Str
  join : Str → Str → Str
  resolve : Str → Str
  decode : Str → Option Str
  fs : Str → Bool

/-- Replace the existence oracle of an environment. -/
def Env.setFs (env : Env) (fs : Str → Bool) : Env :=
  { env with fs := fs }

/-- A Linux environment wired to the concrete `path.posix` algorithms, with
identity NFC normalization and identity percent-decoding (exact for the
ASCII, percent-free strings used at concrete evaluation points). -/
def posixEnv (configDir : Str) (fs : Str → Bool) : Env :=
  { platform := "linux".toList
    configDir := configDir
    nfc := id
    normalize := posixNormalize
    join := posixJoin
    resolve := posixResolve ['/']
    decode := fun s => some s
    fs := fs }

/-! ## Path Resolver (`src/lib/path-resolver.ts`) -/

/-- Failure kinds reported by `PathResolver.resolveImagePath`; each
constructor corresponds to one error-reporting call site. -/
inductive ResolveError where
  /-- `handlePathResolutionError('Empty or invalid path provided')`. -/
  | emptyInput
  /-- `handlePathResolutionError('Path is too long')`. -/
  | tooLong
  /-- `handlePathResolutionError('Path contains null bytes')`. -/
  | nullByte
  /-- the `catch` branch: `handlePathResolutionError(imagePath)`. -/
  | internalError
  /-- `handlePathResolutionError('Resolved path is too long')`. -/
  | resolvedTooLong
  /-- `handlePathResolutionError('Resolved path contains invalid characters')`. -/
  | invalidChars
  /-- `handleFileNotFound(resolvedPath)`. -/
  | notFound
deriving DecidableEq, Repr

/-- Result of `resolveImagePath`: the resolved path, or `null` together with
the error report issued. -/
inductive ResolveResult where
  | ok (path : Str)
  | err (e : ResolveError)
deriving DecidableEq, Repr

/-- Does the error kind go through `ErrorHandler.handlePathResolutionError`
(every kind except `notFound`, which goes through `handleFileNotFound`)? -/
def pathResolutionReport : ResolveError → Bool
  | .notFound => false
  | _ => true

/-- `PathResolver.isAbsolutePath`: drive-letter or UNC prefix on win32,
leading `/` elsewhere. -/
def isAbsolutePath (platform : Str) (path : Str) : Bool :=
  if platform = "win32".toList then
    (match path with
     | a :: b :: c :: _ => a.isAlpha && b = ':' && (c = '\\' || c = '/')
     | _ => false) ||
    isPref ['\\', '\\'] path
  else
    isPref ['/'] path

/-- Boolean string-suffix test (used for the configuration-directory
stripping regex). -/
def isSuff (a b : Str) : Bool :=
  isPref a.reverse b.reverse

/-- `configDir.replace(/[/\\]\.obsidian$/, '')`: strip one trailing
`/.obsidian` or `\.obsidian` segment. -/
def stripObsidian (configDir : Str) : Str :=
  if isSuff "/.obsidian".toList configDir || isSuff "\\.obsidian".toList configDir
  then configDir.take (configDir.length - 10)
  else configDir

/-- `path.replace(/^\.\//, '')`: remove one leading `./`. -/
def stripDotSlash (path : Str) : Str :=
  if isPref "./".toList path then path.drop 2 else path

/-- Replace every backslash with a forward slash
(`cleanPath.replace(/\\/g, '/')`). -/
def backslashToSlash (l : Str) : Str :=
  l.map (fun c => if c = '\\' then '/' else c)

/-- Collapse every run of consecutive slashes to a single slash
(`cleanPath.replace(/\/+/g, '/')`). -/
def collapseSlashes : Str → Str
  | [] => []
  | [c] => [c]
  | a :: b :: rest =>
    if a = '/' && b = '/' then collapseSlashes (b :: rest)
    else a :: collapseSlashes (b :: rest)

/-- The sanitization block of `resolveImagePath`: trim, NFC-normalize,
convert backslashes, collapse repeated slashes and strip one trailing slash
(unless the path is a single character). -/
def cleanPathOf (env : Env) (imagePath : Str) : Str :=
  let c := jsTrimL imagePath
  let c := env.nfc c
  let c := backslashToSlash c
  let c := collapseSlashes c
  if c.length > 1 && c.getLast? = some '/' then c.dropLast else c

/-- `PathResolver.resolveRelativePath`: derive the vault base path from the
configuration directory (throwing, modelled as `.error`, when it is empty),
strip a leading `./` and resolve against the base with
`normalize(resolve(join(base, cleanPath)))`. -/
def resolveRelativePath (env : Env) (path : Str) : Except Unit Str :=
  let base := stripObsidian env.configDir
  if base = [] then .error ()
  else
    let cleanP := stripDotSlash path
    .ok (env.normalize (env.resolve (env.join base cleanP)))

/-- The resolution stage of `resolveImagePath`: sanitize, classify as
absolute or relative, and produce the candidate resolved path. -/
def resolvedOf (env : Env) (imagePath : Str) : Except Unit Str :=
  let c := cleanPathOf env imagePath
  if isAbsolutePath env.platform c then .ok (env.normalize c)
  else resolveRelativePath env c

/-- `PathResolver.isValidResolvedPath`: reject null bytes, control
characters, more than ten `..` occurrences, and the four suspicious
patterns (whose character class deliberately admits parentheses and
brackets). -/
def isValidResolvedPath (path : Str) : Bool :=
  if containsNull path then false
  else if path.any controlJS then false
  else if countDotDot path > 10 then false
  else if suspiciousResolver path then false
  else true

/-- `PathResolver.resolveImagePath`: input guards, sanitization and
resolution, resolved-path guards, then the existence check. -/
def resolveImagePath (env : Env) (imagePath : Str) : ResolveResult :=
  if jsTrimL imagePath = [] then .err .emptyInput
  else if imagePath.length > 1000 then .err .tooLong
  else if containsNull imagePath then .err .nullByte
  else
    match resolvedOf env imagePath with
    | .error _ => .err .internalError
    | .ok resolvedPath =>
      if resolvedPath.length > 2000 then .err .resolvedTooLong
      else if !isValidResolvedPath resolvedPath then .err .invalidChars
      else if !env.fs resolvedPath then .err .notFound
      else .ok resolvedPath

/-! ## System Launcher (`src/lib/system-launcher.ts`) -/

/-- `getOpenCommand`: platform switch selecting the shell open command. -/
def getOpenCommand (platform : Str) : Str :=
  if platform = "win32".toList then "start".toList
  else if platform = "darwin".toList then "open".toList
  else if platform = "linux".toList then "xdg-open".toList
  else "xdg-open".toList

/-- Join command arguments with single spaces (`args.join(' ')`). -/
def joinArgs : List Str → Str
  | [] => []
  | [a] => a
  | a :: rest => a ++ ' ' :: joinArgs rest

/-- The command line built by `executeCommand`: the Windows `start` command
receives an empty window-title argument before the path. -/
def buildFullCommand (platform command : Str) (args : List Str) : Str :=
  if command = "start".toList && platform = "win32".toList then
    "start \"\" ".toList ++ joinArgs args
  else command ++ ' ' :: joinArgs args

/-- `isValidFilePath` of the Launcher: non-empty, no null byte, at most 2000
characters, and none of the Launcher's dangerous patterns (whose character
class also rejects parentheses, braces and brackets). -/
def isValidFilePath (filePath : Str) : Bool :=
  if filePath = [] then false
  else if containsNull filePath then false
  else if filePath.length > 2000 then false
  else !dangerousLauncher filePath

/-! ## Image Event Handler (`src/image-event-handler.ts`) -/

/-- Outcome of `sanitizeImagePath`: the sanitized path, the two distinctly
reported scheme rejections, or a silent `null`. -/
inductive SanitizeOutcome where
  /-- the sanitized path is returned. -/
  | ok (p : Str)
  /-- `data:`/`blob:` reference: `handleEmbeddedImageError`, then `null`. -/
  | embeddedImage
  /-- `http://`/`https://` reference: `handleNetworkImageError`, then `null`. -/
  | networkImage
  /-- silent `null` (empty result, or only dots and separators). -/
  | rejected
deriving DecidableEq, Repr

/-- Capture group of `path.match(/app:\/\/[^/]+\/(.+)/)` at the leading
`app://` occurrence: a non-empty authority, a slash, then a maximal non-empty
run of `.`-matched characters. -/
def appCapture (path : Str) : Option Str :=
  let rest := path.drop 6
  let auth := rest.takeWhile (fun c => ¬ c = '/')
  if auth = [] then none
  else
    match rest.drop auth.length with
    | '/' :: tail =>
      let cap := tail.takeWhile dotChar
      if cap = [] then none else some cap
    | _ => none

/-- Strip the query string and the fragment:
`path.split('?')[0].split('#')[0]`. -/
def stripQF (q : Str) : Str :=
  (q.takeWhile (fun c => ¬ c = '?')).takeWhile (fun c => ¬ c = '#')

/-- `ImageEventHandler.isDangerousPath`: null byte, more than five `..`
occurrences, or the same four suspicious patterns as the Resolver. -/
def isDangerousPath (p : Str) : Bool :=
  if containsNull p then true
  else if countDotDot p > 5 then true
  else suspiciousResolver p

/-- `ImageEventHandler.sanitizeImagePath`: scheme handling, query/fragment
stripping, NFC, separator normalization, guarded percent-decoding, trim and
the final emptiness/dots-only checks. -/
def sanitizeImagePath (env : Env) (imagePath : Str) : SanitizeOutcome :=
  if imagePath = [] then .rejected
  else
    let path := jsTrimL imagePath
    let path :=
      if isPref "file://".toList path then
        match env.decode (path.drop 7) with
        | some d => d
        | none => path.drop 7
      else path
    let path :=
      if isPref "app://".toList path then
        match appCapture path with
        | some cap =>
          match env.decode cap with
          | some d => d
          | none => cap
        | none => path
      else path
    if isPref "data:".toList path then .embeddedImage
    else if isPref "blob:".toList path then .embeddedImage
    else if isPref "http://".toList path || isPref "https://".toList path then
      .networkImage
    else
      let path := stripQF path
      let path := env.nfc path
      let path := backslashToSlash path
      let path :=
        if path.contains '%' then
          match env.decode path with
          | some d => if !isDangerousPath d then d else path
          | none => path
        else path
      let path := jsTrimL path
      if path = [] then .rejected
      else if path.all (fun c => c = '.' || c = '/' || c = '\\') then .rejected
      else .ok path

/-- Project the successful case of a sanitization outcome. -/
def sanitizeOk : SanitizeOutcome → Option Str
  | .ok p => some p
  | _ => none

/-- An `img` element's attribute record: `src`, `alt`, `dataset.src`,
`data-path`, `data-href`, `title` (`none` models a missing attribute). -/
structure ImgEl where
  src : Option Str
  alt : Option Str
  dataSrc : Option Str
  dataPath : Option Str
  dataHref : Option Str
  title : Option Str
deriving DecidableEq, Repr

/-- The candidate array of `extractImagePath` after `.filter(Boolean)`:
the six attributes in source order with missing and empty entries removed. -/
def candidateList (el : ImgEl) : List Str :=
  ([el.src, el.alt, el.dataSrc, el.dataPath, el.dataHref, el.title].filterMap id).filter
    (fun s => ¬ s = [])

/-- The `for`-loop of `extractImagePath`: return the first candidate whose
sanitization succeeds. -/
def extractLoop (env : Env) : List Str → Option Str
  | [] => none
  | p :: rest =>
    match sanitizeOk (sanitizeImagePath env p) with
    | some sp => some sp
    | none => extractLoop env rest

/-- `ImageEventHandler.extractImagePath`. -/
def extractImagePath (env : Env) (el : ImgEl) : Option Str :=
  extractLoop env (candidateList el)

/-- ASCII lowercasing of one character (`String.prototype.toLowerCase` on
the ASCII range). -/
def jsLower (c : Char) : Char :=
  if 'A' ≤ c && c ≤ 'Z' then Char.ofNat (c.toNat + 32) else c

/-- Lowercase a whole string. -/
def jsLowerStr (l : Str) : Str :=
  l.map jsLower

/-- The thirteen supported image extensions of `isValidImageFormat`. -/
def supportedExtensions : List Str :=
  [".png".toList, ".jpg".toList, ".jpeg".toList, ".gif".toList,
   ".webp".toList, ".bmp".toList, ".svg".toList, ".ico".toList,
   ".tiff".toList, ".tif".toList, ".avif".toList, ".heic".toList,
   ".heif".toList]

/-- JavaScript `lastIndexOf('.')`: index of the last dot, `-1` when there is
none. -/
def lastIndexOfDot (l : Str) : Int :=
  if l.contains '.' then
    (l.length : Int) - 1 - ((l.reverse.takeWhile (fun c => ¬ c = '.')).length : Int)
  else -1

/-- `ImageEventHandler.isValidImageFormat`: strip query and fragment,
lowercase and trim, then accept exactly when the substring from the last dot
is a supported extension of reasonable length. -/
def isValidImageFormat (q : Str) : Bool :=
  if q = [] then false
  else
    let low := jsTrimL (jsLowerStr (stripQF q))
    if !(low.contains '.') then false
    else
      let idx := lastIndexOfDot low
      if idx = -1 || idx = (low.length : Int) - 1 then false
      else
        let ext := low.drop idx.toNat
        if ext.length > 10 then false
        else supportedExtensions.contains ext

/-- The final extension of a path: the segment starting at the last dot
(`none` when the path has no dot). -/
def lastExt (l : Str) : Option Str :=
  let run := l.reverse.takeWhile (fun c => ¬ c = '.')
  if run.length = l.length then none else some ('.' :: run.reverse)

/-- The image-format gate as an extension test: after stripping query string
and fragment, lowercasing and trimming, the final extension must be one of
the thirteen supported ones and at most ten characters long. -/
def specFormatGate (q : Str) : Bool :=
  match lastExt (jsTrimL (jsLowerStr (stripQF q))) with
  | none => false
  | some e => supportedExtensions.contains e && e.length ≤ 10

/-- A double-clicked target element: its tag name, class list, own
attributes (used when the target is itself an `img`) and the first `img`
descendant found by `querySelector('img')`. -/
structure TargetEl where
  tagName : Str
  classes : List Str
  attrs : ImgEl
  imgChild : Option ImgEl
deriving DecidableEq, Repr

/-- `ImageEventHandler.isImageElement`: an `img` tag, a `span` with the
`image-embed` class, or an element containing an `img` descendant. -/
def isImageElement (t : TargetEl) : Bool :=
  if jsLowerStr t.tagName = "img".toList then true
  else if jsLowerStr t.tagName = "span".toList &&
      t.classes.contains "image-embed".toList then true
  else t.imgChild.isSome

/-- The `img` element the handler works on: the target itself when it is an
`img`, otherwise its first `img` descendant. -/
def imgElementOf (t : TargetEl) : Option ImgEl :=
  if jsLowerStr t.tagName = "img".toList then some t.attrs else t.imgChild

/-- Terminal outcome of one double-click, one constructor per return path of
`handleImageDoubleClick` (launch execution abstracted into `launched`). -/
inductive ClickOutcome where
  /-- the target is not an image element; the handler returns silently. -/
  | notImage
  /-- no `img` element found: generic error `'Could not find image element'`. -/
  | imgMissing
  /-- extraction failed: generic error `'Could not extract image path'`. -/
  | pathMissing
  /-- `handleInvalidImageFormat` report. -/
  | invalidFormat
  /-- generic error `'Image path is too long'`. -/
  | pathTooLong
  /-- generic error `'Image path contains potentially dangerous characters'`. -/
  | dangerous
  /-- the Path Resolver was invoked and failed. -/
  | resolveFailed (e : ResolveError)
  /-- the Resolver succeeded and the Launcher was invoked on the path. -/
  | launched (resolved : Str)
deriving DecidableEq, Repr

/-- `ImageEventHandler.handleImageDoubleClick` up to the launch call:
image-element test, path extraction, format gate, length gate, danger gate,
then resolution and launch. -/
def handleImageDoubleClick (env : Env) (t : TargetEl) : ClickOutcome :=
  if !isImageElement t then .notImage
  else
    match imgElementOf t with
    | none => .imgMissing
    | some img =>
      match extractImagePath env img with
      | none => .pathMissing
      | some imagePath =>
        if !isValidImageFormat imagePath then .invalidFormat
        else if imagePath.length > 1000 then .pathTooLong
        else if isDangerousPath imagePath then .dangerous
        else
          match resolveImagePath env imagePath with
          | .err e => .resolveFailed e
          | .ok resolved => .launched resolved

/-- Did the click reach the Path Resolver (and, on success, the Launcher)? -/
def reachedResolver : ClickOutcome → Bool
  | .resolveFailed _ => true
  | .launched _ => true
  | _ => false

/-- The six characters the Launcher's injection class rejects beyond the
Resolver's class. -/
def launcherOnlyChars : Str := ['(', ')', obChar, cbChar, '[', ']']

/-! ## General lemmas -/

theorem any_agree (l : Str) (p q : Char → Bool) (h : ∀ c ∈ l, p c = q c) :
    l.any p = l.any q := by
  induction l with
  | nil => rfl
  | cons a t ih =>
    simp only [List.any_cons]
    rw [h a (by simp), ih fun c hc => h c (by simp [hc])]

theorem any_false_mono (l : Str) (p q : Char → Bool) (h : l.any q = false)
    (himp : ∀ c, p c = true → q c = true) : l.any p = false := by
  rw [List.any_eq_false] at h ⊢
  intro c hc hpc
  exact h c hc (himp c hpc)

theorem launcher_chars_split :
    launcherInjChars = resolverInjChars ++ launcherOnlyChars := by decide

/-! ## Claim C6 -/

/-- C6: the Launcher's command selection is a pure function of the platform
identifier: `win32` selects the shell `start` facility (invoked by
`executeCommand` with an empty window-title argument before the path),
`darwin` selects `open`, and every other platform value, `linux` included,
selects `xdg-open`. -/
theorem claim6_platform_dispatch :
    getOpenCommand "win32".toList = "start".toList ∧
    getOpenCommand "darwin".toList = "open".toList ∧
    getOpenCommand "linux".toList = "xdg-open".toList ∧
    (∀ pl : Str, pl ≠ "win32".toList → pl ≠ "darwin".toList →
      getOpenCommand pl = "xdg-open".toList) ∧
    (∀ p : Str, buildFullCommand "win32".toList "start".toList [p] =
      "start \"\" ".toList ++ p) := by
  refine ⟨by decide, by decide, by decide, ?_, ?_⟩
  · intro pl h1 h2
    unfold getOpenCommand
    rw [if_neg h1, if_neg h2]
    by_cases h3 : pl = "linux".toList
    · rw [if_pos h3]
    · rw [if_neg h3]
  · intro p
    unfold buildFullCommand
    rw [if_pos (by decide)]
    rfl

/-- Witness for C6: a platform the source never names falls back to
`xdg-open`. -/
theorem claim6_witness : getOpenCommand "freebsd".toList = "xdg-open".toList :=
  claim6_platform_dispatch.2.2.2.1 "freebsd".toList (by decide) (by decide)

/-! ## Claim C7 -/

/-- C7: `resolveImagePath` rejects empty or whitespace-only input, input
longer than 1000 characters, and input containing a null byte, each with a
path-resolution error report and a null result, independently of the whole
environment (so before any resolution step or filesystem access); and a
resolved path longer than 2000 characters is likewise rejected before the
existence check. -/
theorem claim7_input_guards (input : Str) :
    (jsTrimL input = [] →
      ∀ env : Env, resolveImagePath env input = .err .emptyInput ∧
        pathResolutionReport .emptyInput = true) ∧
    (jsTrimL input ≠ [] → input.length > 1000 →
      ∀ env : Env, resolveImagePath env input = .err .tooLong ∧
        pathResolutionReport .tooLong = true) ∧
    (jsTrimL input ≠ [] → input.length ≤ 1000 → containsNull input = true →
      ∀ env : Env, resolveImagePath env input = .err .nullByte ∧
        pathResolutionReport .nullByte = true) ∧
    (∀ (env : Env) (r : Str), jsTrimL input ≠ [] → input.length ≤ 1000 →
      containsNull input = false → resolvedOf env input = .ok r →
      r.length > 2000 →
      resolveImagePath env input = .err .resolvedTooLong ∧
        (∀ fs2, resolveImagePath (env.setFs fs2) input = .err .resolvedTooLong) ∧
        pathResolutionReport .resolvedTooLong = true) := by
  refine ⟨?_, ?_, ?_, ?_⟩
  · intro h env
    exact ⟨by simp [resolveImagePath, h], rfl⟩
  · intro h1 h2 env
    refine ⟨?_, rfl⟩
    unfold resolveImagePath
    rw [if_neg h1, if_pos h2]
  · intro h1 h2 h3 env
    refine ⟨?_, rfl⟩
    unfold resolveImagePath
    rw [if_neg h1, if_neg (by omega), if_pos h3]
  · intro env r h1 h2 h3 h4 h5
    have key : ∀ env2 : Env, resolvedOf env2 input = .ok r →
        resolveImagePath env2 input = .err .resolvedTooLong := by
      intro env2 h6
      unfold resolveImagePath
      rw [if_neg h1, if_neg (by omega), if_neg (by simp [h3]), h6]
      simp only
      rw [if_pos h5]
    exact ⟨key env h4, fun fs2 => key (env.setFs fs2) h4, rfl⟩

/-- Witness for C7: whitespace-only input is rejected as empty input. -/
theorem claim7_witness :
    resolveImagePath (posixEnv "/vault/.obsidian".toList (fun _ => true))
      "  ".toList = .err .emptyInput :=
  ((claim7_input_guards "  ".toList).1 (by decide)
    (posixEnv "/vault/.obsidian".toList (fun _ => true))).1

/-! ## Claim C2 -/

theorem resolvedOf_setFs (env : Env) (fs2 : Str → Bool) (input : Str) :
    resolvedOf (env.setFs fs2) input = resolvedOf env input := rfl

theorem invalid_of_dangerous (r : Str)
    (h : containsNull r = true ∨ r.any controlJS = true ∨
      anyCharIn resolverInjChars r = true ∨ countDotDot r > 10) :
    isValidResolvedPath r = false := by
  unfold isValidResolvedPath
  rcases h with h | h | h | h
  · rw [if_pos h]
  · cases hn : containsNull r <;> simp [hn, h]
  · have hs : suspiciousResolver r = true := by simp [suspiciousResolver, h]
    cases hn : containsNull r <;> cases hc : r.any controlJS <;>
      by_cases hd : countDotDot r > 10 <;> simp [hn, hc, hd, hs]
  · cases hn : containsNull r <;> cases hc : r.any controlJS <;> simp [hn, hc, h]

/-- C2: whenever the candidate resolved form of an input contains a null
byte, a command-injection character of the Resolver's class, a control
character, or more than ten `..` occurrences, `resolveImagePath` fails with
a path-resolution error report and a null result, and the outcome is the
same for every filesystem oracle - the file-existence check is never
reached. -/
theorem claim2_dangerous_resolved_rejected (env : Env) (input r : Str)
    (hres : resolvedOf env input = .ok r)
    (hbad : containsNull r = true ∨ r.any controlJS = true ∨
      anyCharIn resolverInjChars r = true ∨ countDotDot r > 10) :
    ∃ e : ResolveError, pathResolutionReport e = true ∧
      ∀ fs2, resolveImagePath (env.setFs fs2) input = .err e := by
  by_cases h1 : jsTrimL input = []
  · exact ⟨.emptyInput, rfl, fun fs2 => by simp [resolveImagePath, h1]⟩
  by_cases h2 : input.length > 1000
  · refine ⟨.tooLong, rfl, fun fs2 => ?_⟩
    unfold resolveImagePath
    rw [if_neg h1, if_pos h2]
  by_cases h3 : containsNull input = true
  · refine ⟨.nullByte, rfl, fun fs2 => ?_⟩
    unfold resolveImagePath
    rw [if_neg h1, if_neg h2, if_pos h3]
  have hres2 : ∀ fs2, resolvedOf (env.setFs fs2) input = .ok r :=
    fun fs2 => (resolvedOf_setFs env fs2 input).trans hres
  by_cases h4 : r.length > 2000
  · refine ⟨.resolvedTooLong, rfl, fun fs2 => ?_⟩
    unfold resolveImagePath
    rw [if_neg h1, if_neg h2, if_neg h3, hres2 fs2]
    simp only
    rw [if_pos h4]
  · refine ⟨.invalidChars, rfl, fun fs2 => ?_⟩
    unfold resolveImagePath
    rw [if_neg h1, if_neg h2, if_neg h3, hres2 fs2]
    simp only
    rw [if_neg h4, invalid_of_dangerous r hbad]
    simp

/-- Witness for C2: an absolute path containing a semicolon is rejected with
the invalid-characters report for every filesystem oracle. -/
theorem claim2_witness :
    ∃ e : ResolveError, pathResolutionReport e = true ∧
      ∀ fs2, resolveImagePath
        ((posixEnv "/vault/.obsidian".toList (fun _ => true)).setFs fs2)
        "/a;b.png".toList = .err e :=
  claim2_dangerous_resolved_rejected
    (posixEnv "/vault/.obsidian".toList (fun _ => true))
    "/a;b.png".toList "/a;b.png".toList rfl
    (Or.inr (Or.inr (Or.inl (by decide))))

/-! ## Claim C1 -/

/-- C1 as stated is false: the two validation predicates are not
extensionally equal, and they do not both accept parentheses.  The
Resolver's `isValidResolvedPath` accepts `(a)` while the Launcher's
`isValidFilePath` rejects it, because the Launcher's injection character
class additionally contains parentheses, braces and brackets. -/
theorem claim1_counterexample :
    isValidResolvedPath "(a)".toList = true ∧
    isValidFilePath "(a)".toList = false := by decide

/-- C1, amended: the Launcher's `isValidFilePath` and the Resolver's
`isValidResolvedPath` agree on every string that is non-empty, at most 2000
characters long, free of control characters (null included), contains at
most ten `..` occurrences, and contains no parenthesis, brace or bracket;
outside this common domain the two predicates differ. -/
theorem claim1_validation_agreement (s : Str)
    (hne : s ≠ []) (hlen : s.length ≤ 2000)
    (hctl : s.any controlJS = false)
    (hdots : countDotDot s ≤ 10)
    (hpar : anyCharIn launcherOnlyChars s = false) :
    isValidFilePath s = isValidResolvedPath s := by
  have hnull : containsNull s = false := by
    unfold containsNull
    refine any_false_mono s _ controlJS hctl fun c hc => ?_
    have : c = '\x00' := by simpa using hc
    subst this
    decide
  have hchars : anyCharIn launcherInjChars s = anyCharIn resolverInjChars s := by
    unfold anyCharIn at hpar ⊢
    refine any_agree s _ _ fun c hc => ?_
    have hc2 : launcherOnlyChars.contains c = false := by
      rw [List.any_eq_false] at hpar
      simpa using hpar c hc
    have happ : (resolverInjChars ++ launcherOnlyChars).contains c =
        (resolverInjChars.contains c || launcherOnlyChars.contains c) := by
      simp [List.contains_eq_any_beq, List.any_append]
    rw [launcher_chars_split, happ, hc2, Bool.or_false]
  have hdl : dangerousLauncher s = suspiciousResolver s := by
    unfold dangerousLauncher suspiciousResolver
    rw [hchars]
  unfold isValidFilePath isValidResolvedPath
  rw [if_neg hne, if_neg (by simp [hnull]), if_neg (by omega),
    if_neg (by simp [hnull]), if_neg (by simp [hctl]), if_neg (by omega), hdl]
  cases suspiciousResolver s <;> simp

/-- Witness for C1 (amended): a plain image path is accepted by both
predicates. -/
theorem claim1_witness :
    isValidFilePath "/vault/img 1.png".toList =
      isValidResolvedPath "/vault/img 1.png".toList :=
  claim1_validation_agreement "/vault/img 1.png".toList (by decide) (by decide)
    (by decide) (by decide) (by decide)

/-! ## Claim C5 -/

theorem dropWhile_append2 (p : Char → Bool) (a b : Str) :
    (a ++ b).dropWhile p =
      if a.dropWhile p = [] then b.dropWhile p else a.dropWhile p ++ b := by
  induction a with
  | nil => simp
  | cons c a2 ih =>
    by_cases hc : p c
    · simpa [List.dropWhile_cons, hc] using ih
    · simp [List.dropWhile_cons, hc]

theorem dropTrail_append2 (a b : Str) :
    dropTrailWS (a ++ b) =
      if dropTrailWS b = [] then dropTrailWS a else a ++ dropTrailWS b := by
  unfold dropTrailWS
  rw [List.reverse_append, dropWhile_append2]
  by_cases h : b.reverse.dropWhile jsWS = []
  · rw [if_pos h, if_pos (by simp [h])]
  · rw [if_neg h, if_neg (by simp [h]), List.reverse_append, List.reverse_reverse]

theorem jsTrim_append_keep (p t : Str) (h1 : p.dropWhile jsWS = p)
    (h2 : dropTrailWS p = p) (hne : p ≠ []) :
    ∃ u, jsTrimL (p ++ t) = p ++ u := by
  unfold jsTrimL
  rw [dropWhile_append2, h1, if_neg hne, dropTrail_append2]
  by_cases h : dropTrailWS t = []
  · exact ⟨[], by rw [if_pos h, h2, List.append_nil]⟩
  · exact ⟨dropTrailWS t, by rw [if_neg h]⟩

theorem isPref_iff (p l : Str) : isPref p l = true ↔ ∃ t, l = p ++ t := by
  induction p generalizing l with
  | nil => simp [isPref]
  | cons c p2 ih =>
    cases l with
    | nil =>
      simp only [isPref, List.cons_append]
      constructor
      · intro h; cases h
      · rintro ⟨t, h⟩; cases h
    | cons d l2 =>
      show (decide (c = d) && isPref p2 l2) = true ↔ _
      simp only [Bool.and_eq_true, decide_eq_true_eq, ih, List.cons_append]
      constructor
      · rintro ⟨rfl, t, rfl⟩; exact ⟨t, rfl⟩
      · rintro ⟨t, h⟩
        injection h with ha hb
        exact ⟨ha.symm, t, hb⟩

theorem isPref_append_false (p : Str) : ∀ (q u : Str),
    isPref p q = false → isPref q p = false → isPref p (q ++ u) = false := by
  induction p with
  | nil => intro q u h1 _; simp [isPref] at h1
  | cons a p2 ih =>
    intro q u h1 h2
    cases q with
    | nil => simp [isPref] at h2
    | cons b q2 =>
      show (decide (a = b) && isPref p2 (q2 ++ u)) = false
      by_cases hab : a = b
      · subst hab
        have h1b : isPref p2 q2 = false := by simpa [isPref] using h1
        have h2b : isPref q2 p2 = false := by simpa [isPref] using h2
        simp [ih q2 u h1b h2b]
      · simp [hab]

theorem isPref_self_append (p u : Str) : isPref p (p ++ u) = true :=
  (isPref_iff p (p ++ u)).2 ⟨u, rfl⟩

theorem bool_ne_true {b : Bool} (h : b = false) : ¬ b = true := by simp [h]

theorem sanitize_embedded_of (env : Env) (raw m : Str) (hne : ¬ raw = [])
    (hu : jsTrimL raw = m)
    (g1 : isPref "file://".toList m = false)
    (g2 : isPref "app://".toList m = false)
    (g3 : isPref "data:".toList m = true ∨
      (isPref "data:".toList m = false ∧ isPref "blob:".toList m = true)) :
    sanitizeImagePath env raw = .embeddedImage := by
  unfold sanitizeImagePath
  rw [if_neg hne, hu]
  dsimp only
  rw [if_neg (bool_ne_true g1), if_neg (bool_ne_true g2)]
  rcases g3 with g3 | ⟨g3, g4⟩
  · rw [if_pos g3]
  · rw [if_neg (bool_ne_true g3), if_pos g4]

theorem sanitize_network_of (env : Env) (raw m : Str) (hne : ¬ raw = [])
    (hu : jsTrimL raw = m)
    (g1 : isPref "file://".toList m = false)
    (g2 : isPref "app://".toList m = false)
    (g3 : isPref "data:".toList m = false)
    (g4 : isPref "blob:".toList m = false)
    (g5 : (isPref "http://".toList m || isPref "https://".toList m) = true) :
    sanitizeImagePath env raw = .networkImage := by
  unfold sanitizeImagePath
  rw [if_neg hne, hu]
  dsimp only
  rw [if_neg (bool_ne_true g1), if_neg (bool_ne_true g2),
    if_neg (bool_ne_true g3), if_neg (bool_ne_true g4), if_pos g5]

/-- C5: a raw reference beginning with `data:` or `blob:` is rejected by
`sanitizeImagePath` with the distinct embedded-image outcome, and one
beginning with `http://` or `https://` with the distinct network-image
outcome; `sanitizeImagePath` performs no filesystem access at all (its
definition never consults the existence oracle), so no filesystem check
happens for such references. -/
theorem claim5_scheme_rejections (env : Env) (raw : Str) :
    ((isPref "data:".toList raw = true ∨ isPref "blob:".toList raw = true) →
      sanitizeImagePath env raw = .embeddedImage) ∧
    ((isPref "http://".toList raw = true ∨ isPref "https://".toList raw = true) →
      sanitizeImagePath env raw = .networkImage) := by
  constructor
  · rintro (h | h)
    · obtain ⟨t, rfl⟩ := (isPref_iff _ _).1 h
      obtain ⟨u, hu⟩ :=
        jsTrim_append_keep "data:".toList t (by decide) (by decide) (by decide)
      exact sanitize_embedded_of env _ _
        (List.append_ne_nil_of_left_ne_nil (by decide) t) hu
        (isPref_append_false _ _ u (by decide) (by decide))
        (isPref_append_false _ _ u (by decide) (by decide))
        (Or.inl (isPref_self_append _ u))
    · obtain ⟨t, rfl⟩ := (isPref_iff _ _).1 h
      obtain ⟨u, hu⟩ :=
        jsTrim_append_keep "blob:".toList t (by decide) (by decide) (by decide)
      exact sanitize_embedded_of env _ _
        (List.append_ne_nil_of_left_ne_nil (by decide) t) hu
        (isPref_append_false _ _ u (by decide) (by decide))
        (isPref_append_false _ _ u (by decide) (by decide))
        (Or.inr ⟨isPref_append_false _ _ u (by decide) (by decide),
          isPref_self_append _ u⟩)
  · rintro (h | h)
    · obtain ⟨t, rfl⟩ := (isPref_iff _ _).1 h
      obtain ⟨u, hu⟩ :=
        jsTrim_append_keep "http://".toList t (by decide) (by decide) (by decide)
      exact sanitize_network_of env _ _
        (List.append_ne_nil_of_left_ne_nil (by decide) t) hu
        (isPref_append_false _ _ u (by decide) (by decide))
        (isPref_append_false _ _ u (by decide) (by decide))
        (isPref_append_false _ _ u (by decide) (by decide))
        (isPref_append_false _ _ u (by decide) (by decide))
        (by rw [isPref_self_append _ u, Bool.true_or])
    · obtain ⟨t, rfl⟩ := (isPref_iff _ _).1 h
      obtain ⟨u, hu⟩ :=
        jsTrim_append_keep "https://".toList t (by decide) (by decide) (by decide)
      exact sanitize_network_of env _ _
        (List.append_ne_nil_of_left_ne_nil (by decide) t) hu
        (isPref_append_false _ _ u (by decide) (by decide))
        (isPref_append_false _ _ u (by decide) (by decide))
        (isPref_append_false _ _ u (by decide) (by decide))
        (isPref_append_false _ _ u (by decide) (by decide))
        (by rw [isPref_self_append _ u, Bool.or_true])

/-- Witness for C5: a concrete `data:` reference is classified as an
embedded image. -/
theorem claim5_witness :
    sanitizeImagePath (posixEnv "/vault/.obsidian".toList (fun _ => true))
      "data:image/png;base64,AAAA".toList = .embeddedImage :=
  (claim5_scheme_rejections
    (posixEnv "/vault/.obsidian".toList (fun _ => true))
    "data:image/png;base64,AAAA".toList).1 (Or.inl (by decide))

/-! ## Claim C8 -/

theorem extractLoop_eq_findSome (env : Env) (l : List Str) :
    extractLoop env l = l.findSome? (fun p => sanitizeOk (sanitizeImagePath env p)) := by
  induction l with
  | nil => rfl
  | cons a t ih =>
    show (match sanitizeOk (sanitizeImagePath env a) with
      | some sp => some sp
      | none => extractLoop env t) = _
    rw [List.findSome?_cons]
    cases sanitizeOk (sanitizeImagePath env a) <;> simp [ih]

/-- C8: `extractImagePath` inspects the candidates `src`, `alt`,
`dataset.src`, `data-path`, `data-href`, `title` in exactly this order,
skips missing and empty ones, returns the sanitized form of the first
candidate whose sanitization succeeds, and returns `none` when no candidate
survives sanitization (the `findSome?` of the filtered candidate list). -/
theorem claim8_extract_first_sanitized (env : Env) (el : ImgEl) :
    extractImagePath env el =
      (([el.src, el.alt, el.dataSrc, el.dataPath, el.dataHref,
          el.title].filterMap id).filter (fun s => ¬ s = [])).findSome?
        (fun p => sanitizeOk (sanitizeImagePath env p)) :=
  extractLoop_eq_findSome env (candidateList el)

/-! ## Claim C9 -/

theorem getLast?_append_right (l1 l2 : Str) (h : l2 ≠ []) :
    (l1 ++ l2).getLast? = l2.getLast? := by
  rw [List.getLast?_append]
  cases hl : l2.getLast? with
  | none => exact absurd (List.getLast?_eq_none_iff.mp hl) h
  | some c => simp

theorem getLast?_cons_ne (c : Char) (l : Str) (h : l ≠ []) :
    (c :: l).getLast? = l.getLast? := by
  have : (([c] : Str) ++ l).getLast? = l.getLast? := getLast?_append_right [c] l h
  simpa using this

theorem head_dropWhile_false (p : Char → Bool) :
    ∀ (l : Str) (hd : Char) (tl : Str), l.dropWhile p = hd :: tl → p hd = false := by
  intro l
  induction l with
  | nil => intro hd tl h; cases h
  | cons a l2 ih =>
    intro hd tl h
    rw [List.dropWhile_cons] at h
    by_cases ha : p a
    · rw [if_pos ha] at h
      exact ih hd tl h
    · rw [if_neg ha] at h
      injection h with h1 _
      rw [← h1]
      exact Bool.eq_false_iff.mpr ha

theorem no_dot_lastExt (l : Str) (h : l.contains '.' = false) : lastExt l = none := by
  unfold lastExt
  have hdrop : l.reverse.dropWhile (fun c => ¬ c = '.') = [] := by
    rw [List.dropWhile_eq_nil_iff]
    intro x hx
    have hxl : x ∈ l := by simpa using hx
    have : ¬ x = '.' := by
      intro hcon
      subst hcon
      rw [List.contains_eq_any_beq] at h
      rw [List.any_eq_false] at h
      exact h '.' hxl (by simp)
    simp [this]
  have htake : l.reverse.takeWhile (fun c => ¬ c = '.') = l.reverse := by
    have := List.takeWhile_append_dropWhile (fun c => (¬ c = '.' : Bool)) l.reverse
    rw [hdrop, List.append_nil] at this
    exact this
  rw [if_pos]
  rw [htake]
  exact List.length_reverse l.reverse ▸ congrArg List.length (List.reverse_reverse l)

theorem format_gate_eq (q : Str) : isValidImageFormat q = specFormatGate q := by
  by_cases hq : q = []
  · subst hq; decide
  unfold isValidImageFormat specFormatGate
  rw [if_neg hq]
  dsimp only
  generalize hlow0 : jsTrimL (jsLowerStr (stripQF q)) = low
  by_cases hdot : low.contains '.' = true
  · have hnotfalse : ¬ ((!(low.contains '.')) = true) := by rw [hdot]; simp
    rw [if_neg hnotfalse]
    obtain ⟨hd, tl, hdt⟩ : ∃ hd tl,
        low.reverse.dropWhile (fun c => ¬ c = '.') = hd :: tl := by
      cases h : low.reverse.dropWhile (fun c => ¬ c = '.') with
      | nil =>
        exfalso
        rw [List.dropWhile_eq_nil_iff] at h
        have hmem : '.' ∈ low := by
          rw [List.contains_eq_any_beq, List.any_eq_true] at hdot
          obtain ⟨x, hx1, hx2⟩ := hdot
          have hxe : '.' = x := by simpa using hx2
          rwa [← hxe] at hx1
        have h2 := h '.' (by simpa using hmem)
        simp at h2
      | cons a b => exact ⟨a, b, rfl⟩
    have hhd : hd = '.' := by
      have := head_dropWhile_false (fun c => ¬ c = '.') low.reverse hd tl hdt
      simpa using this
    subst hhd
    obtain ⟨run, hrun0⟩ : ∃ r, low.reverse.takeWhile (fun c => ¬ c = '.') = r :=
      ⟨_, rfl⟩
    have hrev : low.reverse = run ++ '.' :: tl := by
      rw [← hrun0, ← hdt]
      exact (List.takeWhile_append_dropWhile _ _).symm
    have hlowdec : low = tl.reverse ++ '.' :: run.reverse := by
      have := congrArg List.reverse hrev
      rw [List.reverse_reverse, List.reverse_append] at this
      simpa using this
    have hlen : low.length = tl.length + 1 + run.length := by
      rw [hlowdec]
      simp only [List.length_append, List.length_cons, List.length_reverse]
      omega
    have hidx : lastIndexOfDot low = (tl.length : Int) := by
      unfold lastIndexOfDot
      rw [if_pos hdot, hrun0, hlen]
      push_cast
      ring
    rw [hidx]
    unfold lastExt
    rw [hrun0]
    have hrunlen : ¬ run.length = low.length := by omega
    rw [if_neg hrunlen]
    have hdropeq : low.drop (tl.length : Int).toNat = '.' :: run.reverse := by
      rw [Int.toNat_natCast, hlowdec, ← List.length_reverse tl, List.drop_left]
    by_cases hend : run = []
    · subst hend
      have h2 : (tl.length : Int) = (low.length : Int) - 1 := by
        simp only [List.length_nil] at hlen
        omega
      rw [if_pos (by rw [decide_eq_true h2]; exact Bool.or_true _)]
      decide
    · have hrunpos : 0 < run.length := List.length_pos.mpr hend
      have hcond : ¬ ((decide ((tl.length : Int) = -1) ||
          decide ((tl.length : Int) = (low.length : Int) - 1)) = true) := by
        simp only [Bool.or_eq_true, decide_eq_true_eq]
        rintro (h | h) <;> omega
      rw [if_neg hcond, hdropeq]
      by_cases h10 : ('.' :: run.reverse).length > 10
      · rw [if_pos h10]
        show false = (supportedExtensions.contains ('.' :: run.reverse) &&
          decide (('.' :: run.reverse).length ≤ 10))
        have hd10 : decide (('.' :: run.reverse).length ≤ 10) = false :=
          decide_eq_false (by omega)
        rw [hd10, Bool.and_false]
      · rw [if_neg h10]
        show supportedExtensions.contains ('.' :: run.reverse) =
          (supportedExtensions.contains ('.' :: run.reverse) &&
            decide (('.' :: run.reverse).length ≤ 10))
        have hd10 : decide (('.' :: run.reverse).length ≤ 10) = true :=
          decide_eq_true (by omega)
        rw [hd10, Bool.and_true]
  · have hfalse : low.contains '.' = false := Bool.eq_false_iff.mpr hdot
    rw [if_pos (show (!(low.contains '.')) = true by rw [hfalse]; rfl),
      no_dot_lastExt low hfalse]

theorem handle_after_extract (env : Env) (t : TargetEl) (img : ImgEl) (p : Str)
    (h1 : isImageElement t = true) (h2 : imgElementOf t = some img)
    (h3 : extractImagePath env img = some p) :
    handleImageDoubleClick env t =
      (if !isValidImageFormat p then .invalidFormat
       else if p.length > 1000 then .pathTooLong
       else if isDangerousPath p then .dangerous
       else match resolveImagePath env p with
         | .err e => .resolveFailed e
         | .ok resolved => .launched resolved) := by
  unfold handleImageDoubleClick
  rw [h1]
  rw [if_neg (by decide : ¬ ((!true) = true))]
  rw [h2]
  dsimp only
  rw [h3]

/-- C9: for every extracted image path, the double-click handler reaches
the Path Resolver (and hence the Launcher) only if the path passes
`isValidImageFormat`; when the format check fails, the handler reports the
invalid-image-format outcome and stops; and the format check holds exactly
when the final extension of the path - after stripping query string and
fragment, lowercasing and trimming - is one of the thirteen supported image
extensions and is at most ten characters long. -/
theorem claim9_format_gate (env : Env) (t : TargetEl) (img : ImgEl) (p : Str)
    (h1 : isImageElement t = true) (h2 : imgElementOf t = some img)
    (h3 : extractImagePath env img = some p) :
    (isValidImageFormat p = false →
      handleImageDoubleClick env t = .invalidFormat) ∧
    (reachedResolver (handleImageDoubleClick env t) = true →
      isValidImageFormat p = true) ∧
    isValidImageFormat p = specFormatGate p := by
  have hu := handle_after_extract env t img p h1 h2 h3
  refine ⟨?_, ?_, format_gate_eq p⟩
  · intro hf
    rw [hu, if_pos (by rw [hf]; rfl)]
  · intro hr
    by_cases hf : isValidImageFormat p = true
    · exact hf
    · exfalso
      rw [Bool.not_eq_true] at hf
      rw [hu, if_pos (by rw [hf]; rfl)] at hr
      exact absurd hr (by decide)

/-- A Linux environment over the vault `/vault` in which every path
exists. -/
def exEnvAll : Env := posixEnv "/vault/.obsidian".toList (fun _ => true)

/-- An `img` element whose source is a text file. -/
def exImg9 : ImgEl :=
  ⟨some "photo.txt".toList, none, none, none, none, none⟩

/-- A double-clicked `img` target carrying `exImg9`. -/
def exTarget9 : TargetEl := ⟨"img".toList, [], exImg9, none⟩

/-- Witness for C9: a non-image extension is reported as an invalid image
format. -/
theorem claim9_witness :
    handleImageDoubleClick exEnvAll exTarget9 = ClickOutcome.invalidFormat :=
  (claim9_format_gate exEnvAll exTarget9 exImg9 "photo.txt".toList
    (by decide) (by decide) (by decide)).1 (by decide)

/-! ## Claim C10 -/

/-- C10, amended: for every extracted image path containing more than five
`..` occurrences, a null byte, or a suspicious command-injection pattern,
the double-click handler never reaches the Path Resolver or the Launcher;
the failure it reports is the dangerous-path one exactly when the path also
passes the image-format gate and the 1000-character length gate - otherwise
the earlier gate's own failure is reported instead. -/
theorem claim10_danger_gate (env : Env) (t : TargetEl) (img : ImgEl) (p : Str)
    (h1 : isImageElement t = true) (h2 : imgElementOf t = some img)
    (h3 : extractImagePath env img = some p)
    (hd : 5 < countDotDot p ∨ containsNull p = true ∨
      suspiciousResolver p = true) :
    reachedResolver (handleImageDoubleClick env t) = false ∧
    (isValidImageFormat p = true → p.length ≤ 1000 →
      handleImageDoubleClick env t = .dangerous) := by
  have hu := handle_after_extract env t img p h1 h2 h3
  have hdang : isDangerousPath p = true := by
    unfold isDangerousPath
    rcases hd with h | h | h
    · cases hn : containsNull p
      · rw [if_neg (by simp), if_pos h]
      · rfl
    · rw [if_pos h]
    · cases hn : containsNull p
      · rw [if_neg (by simp)]
        by_cases hc : countDotDot p > 5
        · rw [if_pos hc]
        · rw [if_neg hc]
          exact h
      · rfl
  constructor
  · rw [hu]
    by_cases hf : isValidImageFormat p = true
    · rw [if_neg (by rw [hf]; decide)]
      by_cases hl : p.length > 1000
      · rw [if_pos hl]
        rfl
      · rw [if_neg hl, if_pos hdang]
        rfl
    · rw [Bool.not_eq_true] at hf
      rw [if_pos (by rw [hf]; rfl)]
      rfl
  · intro hf hl
    rw [hu, if_neg (by rw [hf]; decide), if_neg (by omega), if_pos hdang]

/-- An `img` element whose source has six `..` segments and a non-image
extension. -/
def exImg10a : ImgEl :=
  ⟨some "../../../../../../a.txt".toList, none, none, none, none, none⟩

/-- A double-clicked `img` target carrying `exImg10a`. -/
def exTarget10a : TargetEl := ⟨"img".toList, [], exImg10a, none⟩

/-- Counterexample for C10 as stated: an extracted path with six `..`
occurrences whose extension is not a supported image format is reported as
an invalid image format, not as a dangerous path - the dangerous-path
report the claim predicts is not issued. -/
theorem claim10_counterexample :
    handleImageDoubleClick exEnvAll exTarget10a = ClickOutcome.invalidFormat ∧
    extractImagePath exEnvAll exImg10a =
      some "../../../../../../a.txt".toList ∧
    5 < countDotDot "../../../../../../a.txt".toList ∧
    ClickOutcome.invalidFormat ≠ ClickOutcome.dangerous := by decide

/-- An `img` element whose source has six `..` segments and a `.png`
extension. -/
def exImg10b : ImgEl :=
  ⟨some "../../../../../../a.png".toList, none, none, none, none, none⟩

/-- A double-clicked `img` target carrying `exImg10b`. -/
def exTarget10b : TargetEl := ⟨"img".toList, [], exImg10b, none⟩

/-- Witness for C10 (amended): with a supported extension and a short path,
six `..` occurrences produce the dangerous-path outcome. -/
theorem claim10_witness :
    handleImageDoubleClick exEnvAll exTarget10b = ClickOutcome.dangerous :=
  (claim10_danger_gate exEnvAll exTarget10b exImg10b
    "../../../../../../a.png".toList (by decide) (by decide) (by decide)
    (Or.inl (by decide))).2 (by decide) (by decide)

/-! ## Claim C3 -/

/-- C3, amended: for an absolute path already in sanitized form (trimmed,
NFC-normal, forward slashes only, no repeated and no trailing separator)
that passes the input and resolved-path validity limits and whose
normalization exists on disk, `resolveImagePath` returns exactly the
platform normalization of the path.  In general `resolveImagePath` returns
`normalize(clean(P))`, where `clean` is the sanitization step, not
`normalize(P)`. -/
theorem claim3_absolute_resolution (env : Env) (P : Str)
    (h0 : jsTrimL P = P) (hne : P ≠ [])
    (hclean : cleanPathOf env P = P)
    (habs : isAbsolutePath env.platform P = true)
    (hlen : P.length ≤ 1000) (hnull : containsNull P = false)
    (hrlen : (env.normalize P).length ≤ 2000)
    (hrval : isValidResolvedPath (env.normalize P) = true)
    (hfs : env.fs (env.normalize P) = true) :
    resolveImagePath env P = .ok (env.normalize P) := by
  unfold resolveImagePath
  rw [h0, if_neg hne, if_neg (by omega), if_neg (by simp [hnull])]
  have hres : resolvedOf env P = .ok (env.normalize P) := by
    unfold resolvedOf
    rw [hclean, if_pos habs]
  rw [hres]
  simp only
  rw [if_neg (by omega), if_neg (by rw [hrval]; decide),
    if_neg (by rw [hfs]; decide)]

/-- Witness for C3 (amended): a sanitized absolute path resolves to its own
normalization. -/
theorem claim3_witness :
    resolveImagePath exEnvAll "/a/b.png".toList =
      .ok (exEnvAll.normalize "/a/b.png".toList) :=
  claim3_absolute_resolution exEnvAll "/a/b.png".toList (by decide) (by decide)
    (by decide) (by decide) (by decide) (by decide) (by decide) (by decide)
    (by decide)

/-- Counterexample for C3 as stated: the absolute path `/a\b` (one
backslash) exists, passes every validity limit, yet `resolveImagePath`
returns `/a/b` - the normalization of the sanitized path - while the
platform normalization of `/a\b` itself is `/a\b`, so the result is not
`normalize(P)`. -/
theorem claim3_counterexample :
    isAbsolutePath exEnvAll.platform "/a\\b".toList = true ∧
    exEnvAll.fs "/a\\b".toList = true ∧
    ("/a\\b".toList).length ≤ 1000 ∧
    isValidResolvedPath "/a\\b".toList = true ∧
    resolveImagePath exEnvAll "/a\\b".toList = ResolveResult.ok "/a/b".toList ∧
    exEnvAll.normalize "/a\\b".toList = "/a\\b".toList ∧
    ResolveResult.ok "/a/b".toList ≠
      ResolveResult.ok (exEnvAll.normalize "/a\\b".toList) := by decide

/-! ## Claim C4 -/

/-- A path segment that survives `normalizeString` with `allowAboveRoot`
unset: non-empty, not a dot segment, and free of separators. -/
def goodSeg (e : Str) : Prop :=
  e ≠ [] ∧ e ≠ ['.'] ∧ e ≠ ['.', '.'] ∧ '/' ∉ e

theorem splitSlash_ne_nil (l : Str) : splitSlash l ≠ [] := by
  cases l with
  | nil => simp [splitSlash]
  | cons c rest =>
    unfold splitSlash
    by_cases hc : c = '/'
    · rw [if_pos hc]; simp
    · rw [if_neg hc]
      cases h : splitSlash rest <;> simp

theorem mem_splitSlash_no_slash (l : Str) : ∀ e ∈ splitSlash l, '/' ∉ e := by
  induction l with
  | nil =>
    intro e he
    simp [splitSlash] at he
    simp [he]
  | cons c rest ih =>
    intro e he
    unfold splitSlash at he
    by_cases hc : c = '/'
    · rw [if_pos hc] at he
      rcases List.mem_cons.mp he with h | h
      · simp [h]
      · exact ih e h
    · rw [if_neg hc] at he
      cases hsp : splitSlash rest with
      | nil => exact absurd hsp (splitSlash_ne_nil rest)
      | cons s ss =>
        rw [hsp] at he
        rcases List.mem_cons.mp he with h | h
        · subst h
          intro hmem
          rcases List.mem_cons.mp hmem with h2 | h2
          · exact hc h2.symm
          · exact ih s (by rw [hsp]; exact List.mem_cons_self s ss) h2
        · exact ih e (by rw [hsp]; exact List.mem_cons_of_mem s h)

theorem splitSlash_noslash_self (s : Str) (h : '/' ∉ s) : splitSlash s = [s] := by
  induction s with
  | nil => rfl
  | cons c rest ih =>
    have hc : ¬ c = '/' := fun hcon => h (by rw [hcon]; exact List.mem_cons_self _ _)
    unfold splitSlash
    rw [if_neg hc, ih (fun hm => h (List.mem_cons_of_mem c hm))]

theorem splitSlash_append_left (s : Str) (h : '/' ∉ s) (m : Str) (hd : Str)
    (tlm : List Str) (hm : splitSlash m = hd :: tlm) :
    splitSlash (s ++ m) = (s ++ hd) :: tlm := by
  induction s with
  | nil => simpa using hm
  | cons c rest ih =>
    have hc : ¬ c = '/' := fun hcon => h (by rw [hcon]; exact List.mem_cons_self _ _)
    show splitSlash (c :: (rest ++ m)) = _
    unfold splitSlash
    rw [if_neg hc, ih (fun hm2 => h (List.mem_cons_of_mem c hm2))]
    rfl

theorem splitSlash_joinSlash (ss : List Str) (hne : ss ≠ [])
    (h : ∀ e ∈ ss, '/' ∉ e) : splitSlash (joinSlash ss) = ss := by
  induction ss with
  | nil => contradiction
  | cons s rest ih =>
    cases rest with
    | nil => exact splitSlash_noslash_self s (h s (List.mem_cons_self _ _))
    | cons a t =>
      show splitSlash (s ++ '/' :: joinSlash (a :: t)) = s :: a :: t
      have hm : splitSlash ('/' :: joinSlash (a :: t)) = [] :: (a :: t) := by
        show splitSlash ('/' :: joinSlash (a :: t)) = _
        unfold splitSlash
        rw [if_pos rfl,
          ih (by simp) (fun e he => h e (List.mem_cons_of_mem s he))]
      have hres := splitSlash_append_left s (h s (List.mem_cons_self _ _)) _ _ _ hm
      rw [hres]
      simp

theorem normSegs_false_good : ∀ (segs acc : List Str),
    (∀ e ∈ acc, goodSeg e) → (∀ e ∈ segs, '/' ∉ e) →
    ∀ e ∈ normSegs false acc segs, goodSeg e := by
  intro segs
  induction segs with
  | nil =>
    intro acc hacc _ e he
    unfold normSegs at he
    exact hacc e (List.mem_reverse.mp he)
  | cons seg rest ih =>
    intro acc hacc hsegs e he
    have hsegs2 : ∀ x ∈ rest, '/' ∉ x :=
      fun x hx => hsegs x (List.mem_cons_of_mem seg hx)
    unfold normSegs at he
    by_cases h1 : seg = [] ∨ seg = ['.']
    · rw [if_pos h1] at he
      exact ih acc hacc hsegs2 e he
    · rw [if_neg h1] at he
      by_cases h2 : seg = ['.', '.']
      · rw [if_pos h2] at he
        cases acc with
        | nil => exact ih [] (by simp) hsegs2 e he
        | cons last acc2 =>
          have he2 : e ∈ (if last = ['.', '.']
              then normSegs false (seg :: last :: acc2) rest
              else normSegs false acc2 rest) := he
          by_cases h3 : last = ['.', '.']
          · exact absurd h3 (hacc last (List.mem_cons_self _ _)).2.2.1
          · rw [if_neg h3] at he2
            exact ih acc2
              (fun x hx => hacc x (List.mem_cons_of_mem last hx)) hsegs2 e he2
      · rw [if_neg h2] at he
        push_neg at h1
        exact ih (seg :: acc)
          (by
            intro x hx
            rcases List.mem_cons.mp hx with hx | hx
            · exact hx ▸ ⟨h1.1, h1.2, h2, hsegs seg (List.mem_cons_self _ _)⟩
            · exact hacc x hx)
          hsegs2 e he

theorem normSegs_fixed (above : Bool) : ∀ (segs acc : List Str),
    (∀ e ∈ segs, e ≠ [] ∧ e ≠ ['.'] ∧ e ≠ ['.', '.']) →
    normSegs above acc segs = acc.reverse ++ segs := by
  intro segs
  induction segs with
  | nil =>
    intro acc _
    unfold normSegs
    simp
  | cons seg rest ih =>
    intro acc h
    have hs := h seg (List.mem_cons_self _ _)
    unfold normSegs
    rw [if_neg (by rintro (hx | hx); exact hs.1 hx; exact hs.2.1 hx),
      if_neg hs.2.2,
      ih (seg :: acc) (fun x hx => h x (List.mem_cons_of_mem seg hx))]
    simp

theorem joinSlash_eq_nil_iff (ss : List Str) (h : ∀ e ∈ ss, e ≠ []) :
    joinSlash ss = [] ↔ ss = [] := by
  cases ss with
  | nil => simp [joinSlash]
  | cons s rest =>
    cases rest with
    | nil => simp [joinSlash, h s (List.mem_cons_self s [])]
    | cons a t => simp [joinSlash]

theorem getLast?_mem_of_eq (l : Str) (c : Char) (h : l.getLast? = some c) :
    c ∈ l := by
  cases l with
  | nil => cases h
  | cons a t =>
    have := List.getLast?_eq_getLast (a :: t) (by simp)
    rw [this] at h
    injection h with h2
    rw [← h2]
    exact List.getLast_mem _

theorem joinSlash_getLast_ne (ss : List Str) :
    ss ≠ [] → (∀ e ∈ ss, e ≠ [] ∧ '/' ∉ e) →
    ¬ (joinSlash ss).getLast? = some '/' := by
  induction ss with
  | nil => intro h; contradiction
  | cons s rest ih =>
    intro _ h
    cases rest with
    | nil =>
      show ¬ s.getLast? = some '/'
      intro hcon
      exact (h s (List.mem_cons_self _ _)).2 (getLast?_mem_of_eq s '/' hcon)
    | cons a t =>
      show ¬ (s ++ '/' :: joinSlash (a :: t)).getLast? = some '/'
      have hj : joinSlash (a :: t) ≠ [] := by
        rw [ne_eq,
          joinSlash_eq_nil_iff (a :: t)
            (fun e he => (h e (List.mem_cons_of_mem s he)).1)]
        simp
      rw [getLast?_append_right s _ (by simp), getLast?_cons_ne '/' _ hj]
      exact ih (by simp) (fun e he => h e (List.mem_cons_of_mem s he))

theorem posix_fixed (res : List Str) (hne : res ≠ [])
    (hgood : ∀ e ∈ res, goodSeg e) (cwd : Str) :
    posixNormalize ('/' :: joinSlash res) = '/' :: joinSlash res ∧
    posixResolve cwd ('/' :: joinSlash res) = '/' :: joinSlash res := by
  have hjne : joinSlash res ≠ [] := by
    rw [ne_eq, joinSlash_eq_nil_iff res (fun e he => (hgood e he).1)]
    exact hne
  have hsp : splitSlash ('/' :: joinSlash res) = [] :: res := by
    unfold splitSlash
    rw [if_pos rfl, splitSlash_joinSlash res hne (fun e he => (hgood e he).2.2.2)]
  have hns : normSegs false [] ([] :: res) = res := by
    have h1 : normSegs false [] ([] :: res) = normSegs false [] res :=
      if_pos (Or.inl rfl)
    rw [h1, normSegs_fixed false res []
      (fun e he => ⟨(hgood e he).1, (hgood e he).2.1, (hgood e he).2.2.1⟩)]
    simp
  have hhead : ('/' :: joinSlash res).head? = some '/' := rfl
  have hlast : ¬ ('/' :: joinSlash res).getLast? = some '/' := by
    rw [getLast?_cons_ne '/' _ hjne]
    exact joinSlash_getLast_ne res hne
      (fun e he => ⟨(hgood e he).1, (hgood e he).2.2.2⟩)
  constructor
  · unfold posixNormalize
    rw [if_neg (by simp)]
    dsimp only
    rw [decide_eq_true hhead, Bool.not_true, hsp, hns, if_neg hjne,
      if_neg hlast, if_pos hhead]
  · unfold posixResolve
    dsimp only
    rw [if_pos hhead, decide_eq_true hhead, Bool.not_true, hsp, hns,
      if_pos hhead]

theorem posix_chain (base2 q cwd : Str)
    (hq1 : q ≠ []) (hq2 : ¬ q.getLast? = some '/') :
    posixNormalize (posixResolve cwd (posixJoin ('/' :: base2) q)) =
      posixNormalize ('/' :: (base2 ++ '/' :: q)) := by
  have hjoin : posixJoin ('/' :: base2) q =
      posixNormalize ('/' :: (base2 ++ '/' :: q)) := by
    simp [posixJoin, hq1]
  rw [hjoin]
  have hAhead : ('/' :: (base2 ++ '/' :: q)).head? = some '/' := rfl
  have hAlast : ¬ ('/' :: (base2 ++ '/' :: q)).getLast? = some '/' := by
    rw [getLast?_cons_ne '/' _ (by simp),
      getLast?_append_right _ _ (by simp), getLast?_cons_ne '/' q hq1]
    exact hq2
  have hgoodres : ∀ e ∈ normSegs false []
      (splitSlash ('/' :: (base2 ++ '/' :: q))), goodSeg e :=
    normSegs_false_good (splitSlash ('/' :: (base2 ++ '/' :: q))) []
      (by simp) (mem_splitSlash_no_slash _)
  by_cases hres : normSegs false [] (splitSlash ('/' :: (base2 ++ '/' :: q))) = []
  · have hN : posixNormalize ('/' :: (base2 ++ '/' :: q)) = ['/'] := by
      unfold posixNormalize
      rw [if_neg (by simp)]
      dsimp only
      rw [decide_eq_true hAhead, Bool.not_true, hres,
        if_pos (show joinSlash ([] : List Str) = ([] : Str) from rfl),
        if_pos hAhead]
    rw [hN]
    rw [show posixResolve cwd ['/'] = ['/'] from rfl]
    decide
  · have hjne2 : joinSlash (normSegs false []
        (splitSlash ('/' :: (base2 ++ '/' :: q)))) ≠ [] := by
      rw [ne_eq, joinSlash_eq_nil_iff _ (fun e he => (hgoodres e he).1)]
      exact hres
    have hN : posixNormalize ('/' :: (base2 ++ '/' :: q)) =
        '/' :: joinSlash (normSegs false []
          (splitSlash ('/' :: (base2 ++ '/' :: q)))) := by
      unfold posixNormalize
      rw [if_neg (by simp)]
      dsimp only
      rw [decide_eq_true hAhead, Bool.not_true, if_neg hjne2,
        if_neg hAlast, if_pos hAhead]
    rw [hN]
    have hfix := posix_fixed _ hres hgoodres cwd
    rw [hfix.2, hfix.1]

/-- C4, amended: for a relative path already in sanitized form (trimmed,
forward slashes only, no repeated and no trailing separator, non-empty)
that passes the input limits, on a POSIX platform whose vault root - the
configuration directory with its trailing `/.obsidian` segment stripped -
is absolute, and whose joined form passes the resolved-path limits,
`resolveImagePath` returns `normalize(root ++ "/" ++ P2)` exactly when a
file exists there, where `P2` is the path after removing one leading `./`,
and fails with the file-not-found report otherwise. -/
theorem claim4_relative_resolution (cfg : Str) (fs : Str → Bool) (P base2 : Str)
    (hroot : stripObsidian cfg = '/' :: base2)
    (h0 : jsTrimL P = P) (hne : P ≠ [])
    (hclean : cleanPathOf (posixEnv cfg fs) P = P)
    (hrel : isAbsolutePath (posixEnv cfg fs).platform P = false)
    (hlast : ¬ P.getLast? = some '/')
    (hlen : P.length ≤ 1000) (hnull : containsNull P = false)
    (hR2 : (posixNormalize (stripObsidian cfg ++ '/' :: stripDotSlash P)).length ≤ 2000)
    (hRv : isValidResolvedPath
      (posixNormalize (stripObsidian cfg ++ '/' :: stripDotSlash P)) = true) :
    resolveImagePath (posixEnv cfg fs) P =
      if fs (posixNormalize (stripObsidian cfg ++ '/' :: stripDotSlash P))
      then .ok (posixNormalize (stripObsidian cfg ++ '/' :: stripDotSlash P))
      else .err .notFound := by
  have hq : stripDotSlash P ≠ [] ∧ ¬ (stripDotSlash P).getLast? = some '/' := by
    unfold stripDotSlash
    by_cases hpfx : isPref "./".toList P = true
    · rw [if_pos hpfx]
      obtain ⟨t, ht⟩ := (isPref_iff _ _).1 hpfx
      rw [ht]
      show t ≠ [] ∧ ¬ t.getLast? = some '/'
      constructor
      · intro h
        exact hlast (by rw [ht, h]; decide)
      · intro hcon
        apply hlast
        rw [ht]
        cases t with
        | nil => simp at hcon
        | cons a t2 =>
          rw [getLast?_append_right _ _ (by simp)]
          exact hcon
    · rw [if_neg hpfx]
      exact ⟨hne, hlast⟩
  have hkey : posixNormalize (posixResolve ['/']
      (posixJoin (stripObsidian cfg) (stripDotSlash P))) =
      posixNormalize (stripObsidian cfg ++ '/' :: stripDotSlash P) := by
    rw [hroot, List.cons_append]
    exact posix_chain base2 (stripDotSlash P) ['/'] hq.1 hq.2
  have hres : resolvedOf (posixEnv cfg fs) P =
      .ok (posixNormalize (stripObsidian cfg ++ '/' :: stripDotSlash P)) := by
    unfold resolvedOf
    rw [hclean, if_neg (by rw [hrel]; decide)]
    unfold resolveRelativePath
    rw [if_neg (show ¬ stripObsidian (posixEnv cfg fs).configDir = [] by
      rw [show (posixEnv cfg fs).configDir = cfg from rfl, hroot]; simp)]
    exact congrArg Except.ok hkey
  unfold resolveImagePath
  rw [h0, if_neg hne, if_neg (by omega), if_neg (by simp [hnull]), hres]
  simp only
  rw [if_neg (by omega), if_neg (by rw [hRv]; decide)]
  by_cases hf : fs (posixNormalize (stripObsidian cfg ++ '/' :: stripDotSlash P)) = true
  · rw [if_neg (show ¬ ((!(posixEnv cfg fs).fs
        (posixNormalize (stripObsidian cfg ++ '/' :: stripDotSlash P))) = true) by
      rw [show (posixEnv cfg fs).fs = fs from rfl, hf]; decide), if_pos hf]
  · have hf2 : fs (posixNormalize (stripObsidian cfg ++ '/' :: stripDotSlash P)) = false :=
      Bool.eq_false_iff.mpr hf
    rw [if_pos (show (!(posixEnv cfg fs).fs
        (posixNormalize (stripObsidian cfg ++ '/' :: stripDotSlash P))) = true by
      rw [show (posixEnv cfg fs).fs = fs from rfl, hf2]; rfl), if_neg hf]

/-- Witness for C4 (amended): `images/photo.png` under vault root `/vault`
resolves to `/vault/images/photo.png` when every file exists. -/
theorem claim4_witness :
    resolveImagePath (posixEnv "/vault/.obsidian".toList (fun _ => true))
      "images/photo.png".toList = .ok "/vault/images/photo.png".toList := by
  have h := claim4_relative_resolution "/vault/.obsidian".toList (fun _ => true)
    "images/photo.png".toList "vault".toList (by decide) (by decide) (by decide)
    (by decide) (by decide) (by decide) (by decide) (by decide) (by decide)
    (by decide)
  rw [h]
  decide

/-- Counterexample for C4 as stated: the relative path `a;b.png` resolves
to a location where a file exists, yet `resolveImagePath` returns the
invalid-characters rejection - neither `normalize(root + "/" + P)` as the
claim requires for an existing target, nor the file-not-found outcome it
allows otherwise. -/
theorem claim4_counterexample :
    isAbsolutePath exEnvAll.platform "a;b.png".toList = false ∧
    stripObsidian exEnvAll.configDir = "/vault".toList ∧
    exEnvAll.fs (posixNormalize ("/vault".toList ++ '/' :: "a;b.png".toList)) = true ∧
    resolveImagePath exEnvAll "a;b.png".toList = .err .invalidChars ∧
    ResolveResult.err .invalidChars ≠
      ResolveResult.ok (posixNormalize ("/vault".toList ++ '/' :: "a;b.png".toList)) ∧
    ResolveResult.err ResolveError.invalidChars ≠
      ResolveResult.err ResolveError.notFound := by decide
